import Mathlib

/-!
Shallow embedding of the core data-collection pipeline of the
vk-hashtag-monitor repository: the SQLite post store (`database.py`),
the post normalizer (`collectors/vk/vk_post_parser.py`), the collector
orchestration (`collectors/vk/vk_collector.py`), the rate-limited API
client call/pause structure (`collectors/vk/vk_api_client.py`) and the
metrics aggregator (`reports/data_aggregator.py`).

Modelling conventions:
- identifier strings (composite post ids) are `List Char`, so that
  Python's `f"{owner_id}_{post_id}"`, `str.split('_')` and `int(...)`
  become executable Lean functions we can reason about;
- timestamps are `Nat` (Unix seconds); the ambient clock
  `datetime.now()` becomes an explicit `now` parameter;
- Python floats are modelled as exact rationals (`ℚ`), with
  `round(x, 2)` modelled as round-half-even to 2 decimals;
- external effects (VK API responses, the wall clock) are explicit
  parameters; per-call outcomes are values of an outcome type.
-/

namespace VKMonitor

/-! ### Decimal representation and parsing of integers

Models Python's `str`/f-string formatting of an `int` and `int(s)`
conversion, as used by `VKPostParser.parse_post_id` and
`VKCollector.update_post_metrics`. -/

/-- One decimal digit as a character, `0 ↦ '0'`, ..., `9 ↦ '9'`. -/
def digitChar (d : Nat) : Char :=
  match d with
  | 0 => '0' | 1 => '1' | 2 => '2' | 3 => '3' | 4 => '4'
  | 5 => '5' | 6 => '6' | 7 => '7' | 8 => '8' | _ + 9 => '9'

/-- Fuel-driven digit extraction; `fuel > n` always suffices. -/
def natReprAux : Nat → Nat → List Char
  | 0, _ => []
  | fuel + 1, n =>
      if n < 10 then [digitChar n]
      else natReprAux fuel (n / 10) ++ [digitChar (n % 10)]

/-- Decimal digits of a natural number, most significant first
(Python `str(n)` for `n ≥ 0`). -/
def natRepr (n : Nat) : List Char := natReprAux (n + 1) n

/-- Decimal representation of an integer, with leading minus sign for
negatives (Python `str(n)` / f-string formatting of an `int`). -/
def intRepr (n : Int) : List Char :=
  if n < 0 then '-' :: natRepr n.natAbs else natRepr n.natAbs

/-- Python `s.split(sep)` for a one-character separator: splits at every
occurrence, keeping empty pieces. -/
def splitOnChar (sep : Char) : List Char → List (List Char)
  | [] => [[]]
  | c :: rest =>
      if c = sep then [] :: splitOnChar sep rest
      else
        match splitOnChar sep rest with
        | [] => [[c]]
        | p :: ps => (c :: p) :: ps

/-- Value of a decimal digit character, if it is one. -/
def digitVal (c : Char) : Option Nat :=
  if 48 ≤ c.toNat ∧ c.toNat ≤ 57 then some (c.toNat - 48) else none

/-- Parses a nonempty all-digits string as a natural number
(accumulator form). -/
def parseNatAux (acc : Nat) : List Char → Option Nat
  | [] => some acc
  | c :: rest => (digitVal c).bind (fun d => parseNatAux (acc * 10 + d) rest)

/-- Python `int(s)` restricted to an optional leading minus followed by
decimal digits; `none` models the `ValueError` raised on any other
shape. -/
def parseInt (l : List Char) : Option Int :=
  match l with
  | [] => none
  | c :: rest =>
      if c = '-' then
        if rest = [] then none
        else (parseNatAux 0 rest).map (fun (n : Nat) => -(n : Int))
      else (parseNatAux 0 (c :: rest)).map (fun (n : Nat) => (n : Int))

/-! ### Raw VK API records

Models the dict shape consumed by `VKPostParser`
(`collectors/vk/vk_post_parser.py`). A metric field of a raw post is
either a mapping (with an optional `count` key; an absent field defaults
to the empty mapping `{}`) or some non-mapping value. -/

/-- A raw metric field: `post.get('views', {})` etc. `counts none` covers
both an absent field (default `{}`) and a mapping without `count`. -/
inductive RawMetric
  | counts : Option Nat → RawMetric
  | nonMapping : RawMetric
deriving DecidableEq

/-- The `count` extraction: `data.get('count', 0) if isinstance(data, dict) else 0`. -/
def RawMetric.extract : RawMetric → Nat
  | counts c => c.getD 0
  | nonMapping => 0

/-- The nested `video` object of a video attachment. -/
structure VideoData where
  views : Option Nat
  duration : Option Nat
  title : Option String
deriving DecidableEq

/-- One attachment of a raw post; `video = none` models an attachment
dict without a `video` key (the code defaults it to `{}`). -/
structure Attachment where
  type : String
  video : Option VideoData
deriving DecidableEq

/-- A raw post from the VK API, with the fields the pipeline reads. -/
structure RawPost where
  owner_id : Option Int
  from_id : Option Int
  id : Option Int
  text : Option String
  date : Option Nat
  views : RawMetric
  likes : RawMetric
  comments : RawMetric
  reposts : RawMetric
  attachments : List Attachment
deriving DecidableEq

/-- Python truthiness of an optional integer: `None` and `0` are falsy. -/
def truthy : Option Int → Bool
  | some v => decide (v ≠ 0)
  | none => false

/-- Python `post.get('owner_id') or post.get('from_id')`. -/
def rawOwnerId (post : RawPost) : Option Int :=
  if truthy post.owner_id then post.owner_id else post.from_id

/-! ### Post normalizer (`VKPostParser`) -/

/-- `VKPostParser.parse_post_id`: the composite id `f"{owner_id}_{post_id}"`. -/
def parse_post_id (owner_id post_id : Int) : List Char :=
  intRepr owner_id ++ '_' :: intRepr post_id

/-- `VKPostParser.build_post_url`: `f"https://vk.com/wall{owner_id}_{post_id}"`. -/
def build_post_url (owner_id post_id : Int) : List Char :=
  "https://vk.com/wall".data ++ intRepr owner_id ++ '_' :: intRepr post_id

/-- Result shape of `extract_video_info`. -/
structure VideoInfo where
  has_video : Nat
  video_views : Nat
  video_duration : Option Nat
  video_title : Option String
deriving DecidableEq

/-- `VKPostParser.extract_video_info`: defaults, then the first
video-typed attachment (the loop breaks at the first match). -/
def extract_video_info (post : RawPost) : VideoInfo :=
  match post.attachments.find? (fun a => decide (a.type = "video")) with
  | none => ⟨0, 0, none, none⟩
  | some a =>
      let video := a.video.getD ⟨none, none, none⟩
      ⟨1, video.views.getD 0, video.duration, video.title⟩

/-- Result shape of `_extract_metrics`. -/
structure Metrics where
  post_views : Nat
  likes : Nat
  comments : Nat
  reposts : Nat
deriving DecidableEq

/-- `VKPostParser._extract_metrics`: each count defaults to 0 when the
field is missing or not a mapping. -/
def extract_metrics (post : RawPost) : Metrics :=
  { post_views := post.views.extract
    likes := post.likes.extract
    comments := post.comments.extract
    reposts := post.reposts.extract }

/-- One stored row of the `posts` table, with the fields and defaults
that `parse_post_data` always supplies to `Database.add_post`. -/
structure PostRow where
  post_id : List Char
  source_type : String
  owner_id : Int
  owner_name : String
  post_url : List Char
  text : String
  date_published : Nat
  post_views : Nat
  likes : Nat
  comments : Nat
  reposts : Nat
  has_video : Nat
  video_views : Nat
  video_duration : Option Nat
  video_title : Option String
  first_collected : Nat
  last_updated : Nat
  hashtag : String
deriving DecidableEq

/-- `VKPostParser.parse_post_data`: assembles the full row, stamping
both `first_collected` and `last_updated` to the current time `now`.
The `getD 0` defaults on the ids are never exercised by the collector,
which calls this only after its truthiness check on both ids. -/
def parse_post_data (post : RawPost) (source_type owner_name hashtag : String)
    (now : Nat) : PostRow :=
  let owner_id := (rawOwnerId post).getD 0
  let pid := post.id.getD 0
  let m := extract_metrics post
  let v := extract_video_info post
  { post_id := parse_post_id owner_id pid
    source_type := source_type
    owner_id := owner_id
    owner_name := owner_name
    post_url := build_post_url owner_id pid
    text := post.text.getD ""
    date_published := post.date.getD 0
    hashtag := hashtag
    post_views := m.post_views
    likes := m.likes
    comments := m.comments
    reposts := m.reposts
    has_video := v.has_video
    video_views := v.video_views
    video_duration := v.video_duration
    video_title := v.video_title
    first_collected := now
    last_updated := now }

/-- The partial field set passed to `Database.update_post`: a key is
present (`some`) or absent (`none`); absent keys are not in the SQL
`SET` clause. Only the columns that `parse_metrics` can supply appear,
which is the full key set the code ever passes. -/
structure FieldsUpdate where
  post_views : Option Nat
  likes : Option Nat
  comments : Option Nat
  reposts : Option Nat
  has_video : Option Nat
  video_views : Option Nat
  video_duration : Option (Option Nat)
  video_title : Option (Option String)
  last_updated : Option Nat
deriving DecidableEq

/-- `VKPostParser.parse_metrics`: metric and video fields plus a fresh
`last_updated` stamp; `first_collected` is never among the keys. -/
def parse_metrics (post : RawPost) (now : Nat) : FieldsUpdate :=
  let m := extract_metrics post
  let v := extract_video_info post
  { post_views := some m.post_views
    likes := some m.likes
    comments := some m.comments
    reposts := some m.reposts
    has_video := some v.has_video
    video_views := some v.video_views
    video_duration := some v.video_duration
    video_title := some v.video_title
    last_updated := some now }

/-! ### Post store (`Database`, `database.py`)

The `posts` table is a list of rows; the `post_id` primary key makes a
duplicate insert fail with `IntegrityError` (caught, returns `False`). -/

/-- The SQLite `posts` table. -/
structure Db where
  rows : List PostRow
deriving DecidableEq

/-- `Database.post_exists`: `SELECT 1 FROM posts WHERE post_id = ?`. -/
def post_exists (db : Db) (pid : List Char) : Bool :=
  db.rows.any (fun r => decide (r.post_id = pid))

/-- `Database.add_post`: `INSERT` of the full row; a duplicate
`post_id` violates the primary key, the `IntegrityError` is caught and
`False` returned, leaving the table unchanged. -/
def add_post (db : Db) (p : PostRow) : Db × Bool :=
  if post_exists db p.post_id then (db, false)
  else (⟨db.rows ++ [p]⟩, true)

/-- Applies a partial field set to a row: exactly the supplied keys are
set, every other column keeps its value. -/
def applyFields (u : FieldsUpdate) (r : PostRow) : PostRow :=
  { r with
    post_views := u.post_views.getD r.post_views
    likes := u.likes.getD r.likes
    comments := u.comments.getD r.comments
    reposts := u.reposts.getD r.reposts
    has_video := u.has_video.getD r.has_video
    video_views := u.video_views.getD r.video_views
    video_duration := u.video_duration.getD r.video_duration
    video_title := u.video_title.getD r.video_title
    last_updated := u.last_updated.getD r.last_updated }

/-- `Database.update_post`: `UPDATE posts SET <supplied keys> WHERE
post_id = ?`; returns `True` iff `cursor.rowcount > 0`, i.e. iff some
row matched. -/
def update_post (db : Db) (pid : List Char) (u : FieldsUpdate) : Db × Bool :=
  let rows' := db.rows.map (fun r => if r.post_id = pid then applyFields u r else r)
  let rowcount := db.rows.countP (fun r => decide (r.post_id = pid))
  (⟨rows'⟩, decide (rowcount > 0))

/-- Stable insertion into a list ordered by `date_published` descending. -/
def insertByDateDesc (p : PostRow) : List PostRow → List PostRow
  | [] => [p]
  | q :: rest =>
      if q.date_published < p.date_published then p :: q :: rest
      else q :: insertByDateDesc p rest

/-- `Database.get_all_posts`: `SELECT * FROM posts ORDER BY
date_published DESC`. -/
def get_all_posts (db : Db) : List PostRow :=
  db.rows.foldr insertByDateDesc []

/-- `Database.get_post_count`: `SELECT COUNT(*) FROM posts`. -/
def get_post_count (db : Db) : Nat :=
  db.rows.length

/-! ### Collector (`VKCollector`, `collectors/vk/vk_collector.py`)

External effects are explicit: the environment carries the VK API
responses (name lookups, `wall.getById`) and the wall clock. -/

/-- The ambient VK API and clock as seen by one collector run.
A `none` name lookup covers both a failed call and a falsy name. -/
structure VKEnv where
  groupName : Nat → Option String
  userName : Int → Option String
  fetch : Int → Int → Option RawPost
  now : Nat

/-- `VKCollector._get_owner_info`: group branch for negative ids (lookup
by absolute value), user branch otherwise, deterministic placeholder on
lookup failure. -/
def get_owner_info (env : VKEnv) (owner_id : Int) : String × String :=
  if owner_id < 0 then
    let group_id := owner_id.natAbs
    match env.groupName group_id with
    | some name => ("group", name)
    | none => ("group", "Group " ++ toString group_id)
  else
    match env.userName owner_id with
    | some name => ("user", name)
    | none => ("user", "User " ++ toString owner_id)

/-- The id check shared by `process_new_post` and the
`collect_new_posts` loop: `if not owner_id or not post_id`. -/
def validIds (post : RawPost) : Bool :=
  truthy (rawOwnerId post) && truthy post.id

/-- The composite id the collector computes for a raw search result:
`parser.parse_post_id(owner_id, post_id)`. -/
def raw_uid (post : RawPost) : List Char :=
  parse_post_id ((rawOwnerId post).getD 0) (post.id.getD 0)

/-- `VKCollector.process_new_post`: id truthiness check, owner
resolution, normalization, insert. -/
def process_new_post (env : VKEnv) (db : Db) (post : RawPost) (hashtag : String) :
    Db × Bool :=
  if validIds post then
    let owner_id := (rawOwnerId post).getD 0
    let info := get_owner_info env owner_id
    let post_data := parse_post_data post info.1 info.2 hashtag env.now
    add_post db post_data
  else (db, false)

/-- The id-parsing prefix of `VKCollector.update_post_metrics`: split
the composite id on `'_'` (exactly two parts required), parse both
parts as integers; `none` models the error return on a malformed id
(wrong part count, or the caught `ValueError` from `int`). -/
def decode_post_id (pid : List Char) : Option (Int × Int) :=
  match splitOnChar '_' pid with
  | [a, b] =>
      match parseInt a, parseInt b with
      | some owner_id, some vk_post_id => some (owner_id, vk_post_id)
      | _, _ => none
  | _ => none

/-- `VKCollector.update_post_metrics`: parse the composite id, fetch
the live post (`None` for a deleted or inaccessible post), then update
the stored metrics. -/
def update_post_metrics (env : VKEnv) (db : Db) (post_id : List Char) :
    Db × Bool :=
  match decode_post_id post_id with
  | some (owner_id, vk_post_id) =>
      match env.fetch owner_id vk_post_id with
      | none => (db, false)
      | some post => update_post db post_id (parse_metrics post env.now)
  | none => (db, false)

/-- One iteration of the `collect_new_posts` loop over a raw search
result: derive ids (skip if falsy), skip if already stored, otherwise
process and count a successful insert. -/
def collect_step (env : VKEnv) (hashtag : String) (st : Db × Nat) (post : RawPost) :
    Db × Nat :=
  if validIds post then
    if post_exists st.1 (raw_uid post) then st
    else
      let res := process_new_post env st.1 post hashtag
      if res.2 then (res.1, st.2 + 1) else (res.1, st.2)
  else st

/-- `VKCollector.collect_new_posts`, given the search result list
returned by `VKAPIClient.search_posts`: folds the per-post loop and
returns the count of successful inserts. -/
def collect_new_posts (env : VKEnv) (db : Db) (hashtag : String)
    (results : List RawPost) : Db × Nat :=
  results.foldl (collect_step env hashtag) (db, 0)

/-- One iteration of the `update_all_posts` loop: an empty stored id is
falsy and counted as an error; otherwise `update_post_metrics` decides
between the success and the error counter. -/
def update_all_step (env : VKEnv) (st : Db × Nat × Nat) (post : PostRow) :
    Db × Nat × Nat :=
  if post.post_id = [] then (st.1, st.2.1, st.2.2 + 1)
  else
    let res := update_post_metrics env st.1 post.post_id
    if res.2 then (res.1, st.2.1 + 1, st.2.2)
    else (res.1, st.2.1, st.2.2 + 1)

/-- `VKCollector.update_all_posts`: loads all rows once, then folds the
per-post refresh, returning `(updated_count, error_count)`. -/
def update_all_posts (env : VKEnv) (db : Db) : Db × Nat × Nat :=
  (get_all_posts db).foldl (update_all_step env) (db, 0, 0)

/-- A stored row whose refresh fails independently of the store state:
its composite id is malformed, or the remote post is gone
(`wall.getById` yields nothing — deleted or inaccessible). -/
def row_fails (env : VKEnv) (r : PostRow) : Bool :=
  match decode_post_id r.post_id with
  | none => true
  | some (o, i) => (env.fetch o i).isNone

/-! ### Metrics aggregator (`DataAggregator`, `reports/data_aggregator.py`)

Python floats are modelled as exact rationals; `round(x, 2)` as
round-half-even to two decimals. -/

/-- Round-half-even of a rational to an integer (Python `round(x)`
semantics on the ideal value). -/
def roundHalfEven (q : ℚ) : ℤ :=
  if Int.fract q < 1/2 then ⌊q⌋
  else if 1/2 < Int.fract q then ⌊q⌋ + 1
  else if ⌊q⌋ % 2 = 0 then ⌊q⌋ else ⌊q⌋ + 1

/-- Python `round(x, 2)`. -/
def round2 (q : ℚ) : ℚ :=
  (roundHalfEven (q * 100) : ℚ) / 100

/-- `DataAggregator.calculate_engagement_rate`:
`(likes+comments+reposts)/views*100` rounded to 2 decimals, `0.0` when
`post_views == 0`. -/
def calculate_engagement_rate (p : PostRow) : ℚ :=
  if p.post_views = 0 then 0
  else round2 (((p.likes : ℚ) + p.comments + p.reposts) / p.post_views * 100)

/-- Result shape of `get_total_stats`. -/
structure TotalStats where
  total_posts : Nat
  total_views : Nat
  total_likes : Nat
  total_comments : Nat
  total_reposts : Nat
  avg_er : ℚ
deriving DecidableEq

/-- `DataAggregator.get_total_stats`: all-zero on an empty corpus, else
sums plus the rounded mean of per-post engagement rates. -/
def get_total_stats (db : Db) : TotalStats :=
  match get_all_posts db with
  | [] => ⟨0, 0, 0, 0, 0, 0⟩
  | p :: rest =>
      let all_posts := p :: rest
      let er_values := all_posts.map calculate_engagement_rate
      let avg_er := er_values.sum / (er_values.length : ℚ)
      { total_posts := all_posts.length
        total_views := (all_posts.map PostRow.post_views).sum
        total_likes := (all_posts.map PostRow.likes).sum
        total_comments := (all_posts.map PostRow.comments).sum
        total_reposts := (all_posts.map PostRow.reposts).sum
        avg_er := round2 avg_er }

/-- Calendar day of a Unix timestamp
(`datetime.fromtimestamp(ts).date()`, with days modelled as day numbers
since the epoch). -/
def dayOf (ts : Nat) : Nat := ts / 86400

/-- One per-day bucket of the daily dynamics series. -/
structure DayBucket where
  date : Nat
  new_posts : Nat
  views : Nat
  likes : Nat
  comments : Nat
  reposts : Nat
  total_posts : Nat
deriving DecidableEq

/-- The bucket of day `d`: aggregates of the posts published on `d` (the
reading of `daily_data[d]`, zero-filled when no post falls on `d`);
`total_posts` is filled by the cumulative pass. -/
def bucketFor (posts : List PostRow) (d : Nat) : DayBucket :=
  let todays := posts.filter (fun p => decide (dayOf p.date_published = d))
  { date := d
    new_posts := todays.length
    views := (todays.map PostRow.post_views).sum
    likes := (todays.map PostRow.likes).sum
    comments := (todays.map PostRow.comments).sum
    reposts := (todays.map PostRow.reposts).sum
    total_posts := 0 }

/-- `min(p.get('date_published', 0) for p in all_posts)` over a
nonempty corpus `p :: rest`. -/
def earliest_published (p : PostRow) (rest : List PostRow) : Nat :=
  rest.foldl (fun m q => min m q.date_published) p.date_published

/-- The earliest publish timestamp of a corpus (0 on an empty corpus,
where the code never evaluates it). -/
def corpus_earliest : List PostRow → Nat
  | [] => 0
  | p :: rest => earliest_published p rest

/-- The final pass of `get_daily_dynamics`: running cumulative sum of
`new_posts` written into `total_posts`. -/
def addCumulative (acc : Nat) : List DayBucket → List DayBucket
  | [] => []
  | b :: rest =>
      let t := acc + b.new_posts
      { b with total_posts := t } :: addCumulative t rest

/-- `DataAggregator.get_daily_dynamics`. `cfgStart` is the configured
`START_DATE` after the `strptime` try/except: `some d` when set and
parseable, `none` when unset or malformed (then the publish day of the
earliest post is used). The day range runs from the start day to
`today` inclusive, gap-filled. -/
def get_daily_dynamics (db : Db) (cfgStart : Option Nat) (today : Nat) :
    List DayBucket :=
  match get_all_posts db with
  | [] => []
  | p :: rest =>
      let all_posts := p :: rest
      let start :=
        match cfgStart with
        | some d => d
        | none => dayOf (earliest_published p rest)
      let days := List.range' start (today + 1 - start)
      addCumulative 0 (days.map (bucketFor all_posts))

/-! ### API client call/pause structure (`VKAPIClient`,
`collectors/vk/vk_api_client.py`)

Each public method is modelled by the sequence of externally visible
actions it performs (the API call and the `_make_pause` sleeps),
indexed by the outcome of the remote call. -/

/-- An externally visible action of the API client. -/
inductive ClientAction
  | apiCall
  | pause
deriving DecidableEq

/-- Outcome of one remote VK API call. -/
inductive CallOutcome (α : Type)
  | ok (v : α)
  | apiErr (code : Nat)
  | httpErr
deriving DecidableEq

/-- `VKAPIClient.search_posts`: on success the items are returned after
`_make_pause()`; on `ApiError` or `ApiHttpError` the handler logs and
returns `[]` with no pause. -/
def search_posts_run (outcome : CallOutcome (List RawPost)) :
    List RawPost × List ClientAction :=
  match outcome with
  | .ok items => (items, [.apiCall, .pause])
  | .apiErr _ => ([], [.apiCall])
  | .httpErr => ([], [.apiCall])

/-- `VKAPIClient.get_post_by_id`: pauses after the call on success and
in both error handlers; an empty response yields `None`. -/
def get_post_by_id_run (outcome : CallOutcome (List RawPost)) :
    Option RawPost × List ClientAction :=
  match outcome with
  | .ok items => (items.head?, [.apiCall, .pause])
  | .apiErr _ => (none, [.apiCall, .pause])
  | .httpErr => (none, [.apiCall, .pause])

/-! ### Store lifecycle (for the `first_collected ≤ last_updated`
invariant)

A reachable store state is produced from the empty table by ingestion
inserts (`parse_post_data` then `add_post`) and metric refreshes
(`parse_metrics` then `update_post`), with a non-decreasing clock. -/

/-- One store mutation of the core pipeline, tagged with the
`datetime.now()` reading of the normalizer call that produced it. -/
inductive StoreOp
  | ingest (post : RawPost) (source_type owner_name hashtag : String) (t : Nat)
  | refresh (pid : List Char) (post : RawPost) (t : Nat)

/-- The clock reading of an operation. -/
def StoreOp.time : StoreOp → Nat
  | ingest _ _ _ _ t => t
  | refresh _ _ t => t

/-- Applies one operation to the store. -/
def applyOp (db : Db) : StoreOp → Db
  | .ingest post st name tag t => (add_post db (parse_post_data post st name tag t)).1
  | .refresh pid post t => (update_post db pid (parse_metrics post t)).1

/-- Applies a sequence of operations in order. -/
def runOps (db : Db) : List StoreOp → Db :=
  List.foldl applyOp db

/-- The operation times are non-decreasing and start no earlier than
`t0` (the clock never runs backwards). -/
def Chronological : Nat → List StoreOp → Prop
  | _, [] => True
  | t0, op :: rest => t0 ≤ op.time ∧ Chronological op.time rest

/-- Every stored row has consistent stamps, all no later than `now`. -/
def StampBounded (db : Db) (now : Nat) : Prop :=
  ∀ r ∈ db.rows, r.first_collected ≤ r.last_updated ∧ r.last_updated ≤ now

/-! ### Concrete sample data used by witnesses -/

/-- A concrete stored row for witness instantiations. -/
def sampleRow : PostRow :=
  { post_id := ('-' :: natRepr 1) ++ '_' :: natRepr 2
    source_type := "group"
    owner_id := -1
    owner_name := "G"
    post_url := []
    text := ""
    date_published := 86400
    post_views := 100
    likes := 2
    comments := 1
    reposts := 0
    has_video := 0
    video_views := 0
    video_duration := none
    video_title := none
    first_collected := 90000
    last_updated := 90000
    hashtag := "#x" }

/-- A second concrete row (high views, low engagement) for the skewed
corpus that separates mean-of-rates from aggregate rate. -/
def skewRow : PostRow :=
  { sampleRow with
    post_id := natRepr 3 ++ '_' :: natRepr 4
    owner_id := 3
    source_type := "user"
    date_published := 86400 * 5 + 7
    post_views := 1000
    likes := 10
    comments := 0
    reposts := 0 }

/-- A low-views, high-engagement row for the skewed corpus. -/
def hotRow : PostRow :=
  { sampleRow with
    post_id := natRepr 5 ++ '_' :: natRepr 6
    owner_id := 5
    source_type := "user"
    post_views := 10
    likes := 5
    comments := 0
    reposts := 0 }

/-- A concrete partial update supplying some keys and omitting others. -/
def sampleUpdate : FieldsUpdate :=
  { post_views := some 200
    likes := some 7
    comments := none
    reposts := none
    has_video := none
    video_views := none
    video_duration := none
    video_title := none
    last_updated := some 90100 }

/-- A concrete environment in which every remote post is gone and no
name resolves. -/
def sampleEnv : VKEnv :=
  { groupName := fun _ => none
    userName := fun _ => none
    fetch := fun _ _ => none
    now := 90100 }

/-- A concrete raw search result with valid ids. -/
def sampleRaw : RawPost :=
  { owner_id := some (-1)
    from_id := none
    id := some 2
    text := some "hello"
    date := some 86400
    views := RawMetric.counts (some 100)
    likes := RawMetric.counts (some 2)
    comments := RawMetric.counts (some 1)
    reposts := RawMetric.counts none
    attachments := [] }

/-- A second concrete raw post (updated metrics for the refresh step). -/
def sampleRaw2 : RawPost :=
  { sampleRaw with
    views := RawMetric.counts (some 150)
    likes := RawMetric.counts (some 4) }

/-- A concrete ingest-then-refresh history for the stamp invariant. -/
def sampleOps : List StoreOp :=
  [StoreOp.ingest sampleRaw "group" "G" "#x" 100,
   StoreOp.refresh (parse_post_id (-1) 2) sampleRaw2 200]

/-! ## Helper lemmas -/

/-! Basic lemmas about the decimal representation. -/

theorem digitVal_digitChar {d : Nat} (h : d < 10) :
    digitVal (digitChar d) = some d := by
  interval_cases d <;> decide

theorem digitChar_ne_underscore (d : Nat) : digitChar d ≠ '_' := by
  rcases d with _|_|_|_|_|_|_|_|_|d <;> simp only [digitChar] <;> decide

theorem digitChar_ne_minus (d : Nat) : digitChar d ≠ '-' := by
  rcases d with _|_|_|_|_|_|_|_|_|d <;> simp only [digitChar] <;> decide

theorem natReprAux_ne_nil {fuel n : Nat} (h : n < fuel) :
    natReprAux fuel n ≠ [] := by
  match fuel with
  | f + 1 =>
    rw [natReprAux]
    split
    · simp
    · simp

theorem natRepr_ne_nil (n : Nat) : natRepr n ≠ [] :=
  natReprAux_ne_nil (Nat.lt_succ_self n)

theorem mem_natReprAux {c : Char} {fuel n : Nat} (h : n < fuel)
    (hm : c ∈ natReprAux fuel n) : ∃ d, d < 10 ∧ c = digitChar d := by
  induction fuel generalizing n with
  | zero => exact absurd h (Nat.not_lt_zero n)
  | succ f ih =>
    rw [natReprAux] at hm
    split at hm
    · simp at hm
      exact ⟨n, by assumption, hm⟩
    · rename_i h10
      rcases List.mem_append.mp hm with h1 | h2
      · exact ih (by omega : n / 10 < f) h1
      · simp at h2
        exact ⟨n % 10, Nat.mod_lt _ (by decide), h2⟩

theorem mem_natRepr {c : Char} {n : Nat} (h : c ∈ natRepr n) :
    ∃ d, d < 10 ∧ c = digitChar d :=
  mem_natReprAux (Nat.lt_succ_self n) h

theorem mem_natRepr_ne_underscore {c : Char} {n : Nat} (h : c ∈ natRepr n) :
    c ≠ '_' := by
  obtain ⟨d, _, hc⟩ := mem_natRepr h
  exact hc ▸ digitChar_ne_underscore d

theorem mem_intRepr_ne_underscore {c : Char} {n : Int} (h : c ∈ intRepr n) :
    c ≠ '_' := by
  unfold intRepr at h
  split at h
  · rcases List.mem_cons.mp h with h1 | h2
    · subst h1; decide
    · exact mem_natRepr_ne_underscore h2
  · exact mem_natRepr_ne_underscore h

/-- Splitting a separator-free string yields the single piece. -/
theorem splitOnChar_of_not_mem {sep : Char} {l : List Char}
    (h : sep ∉ l) : splitOnChar sep l = [l] := by
  induction l with
  | nil => rfl
  | cons c rest ih =>
    have hc : c ≠ sep := fun hcs => h (hcs ▸ List.mem_cons_self c rest)
    have hr : sep ∉ rest := fun hm => h (List.mem_cons_of_mem c hm)
    rw [splitOnChar, if_neg hc, ih hr]

/-- Splitting `a ++ sep :: b` where neither part contains the separator
yields exactly the two parts. -/
theorem splitOnChar_append {sep : Char} {a b : List Char}
    (ha : sep ∉ a) (hb : sep ∉ b) :
    splitOnChar sep (a ++ sep :: b) = [a, b] := by
  induction a with
  | nil =>
    simp only [List.nil_append]
    rw [splitOnChar, if_pos rfl, splitOnChar_of_not_mem hb]
  | cons c rest ih =>
    have hc : c ≠ sep := fun hcs => ha (hcs ▸ List.mem_cons_self c rest)
    have hr : sep ∉ rest := fun hm => ha (List.mem_cons_of_mem c hm)
    rw [List.cons_append, splitOnChar, if_neg hc, ih hr]

theorem parseNatAux_append_digit (acc n : Nat) (l : List Char)
    (h : parseNatAux acc l = some n) (d : Nat) (hd : d < 10) :
    parseNatAux acc (l ++ [digitChar d]) = some (n * 10 + d) := by
  induction l generalizing acc with
  | nil =>
    simp [parseNatAux] at h
    subst h
    simp [parseNatAux, digitVal_digitChar hd]
  | cons c rest ih =>
    cases hdv : digitVal c with
    | some dv =>
      simp only [parseNatAux, List.cons_append, hdv, Option.some_bind] at h ⊢
      exact ih _ h
    | none =>
      simp only [parseNatAux, hdv, Option.none_bind] at h
      exact absurd h (by simp)

theorem parseNatAux_natReprAux {fuel n : Nat} (h : n < fuel) :
    parseNatAux 0 (natReprAux fuel n) = some n := by
  induction fuel generalizing n with
  | zero => exact absurd h (Nat.not_lt_zero n)
  | succ f ih =>
    rw [natReprAux]
    split
    · rename_i h10
      simp [parseNatAux, digitVal_digitChar h10]
    · rename_i h10
      have hdiv := ih (by omega : n / 10 < f)
      have := parseNatAux_append_digit 0 (n / 10) (natReprAux f (n / 10)) hdiv
        (n % 10) (Nat.mod_lt _ (by decide))
      rw [this]
      congr 1
      omega

/-- Parsing the decimal representation of a natural number recovers it. -/
theorem parseNatAux_natRepr (n : Nat) : parseNatAux 0 (natRepr n) = some n :=
  parseNatAux_natReprAux (Nat.lt_succ_self n)

/-- Parsing the decimal representation of an integer recovers it. -/
theorem parseInt_intRepr (n : Int) : parseInt (intRepr n) = some n := by
  unfold intRepr
  split
  · rename_i hneg
    rw [parseInt, if_pos rfl, if_neg (natRepr_ne_nil _), parseNatAux_natRepr]
    have h1 : -(n.natAbs : Int) = n := by omega
    rw [Option.map_some', h1]
  · rename_i hpos
    match hr : natRepr n.natAbs with
    | [] => exact absurd hr (natRepr_ne_nil _)
    | c :: rest =>
      have hcmem : c ∈ natRepr n.natAbs := hr ▸ List.mem_cons_self c rest
      obtain ⟨d, _, hc⟩ := mem_natRepr hcmem
      have hcne : c ≠ '-' := hc ▸ digitChar_ne_minus d
      rw [parseInt, if_neg hcne, ← hr, parseNatAux_natRepr]
      have h1 : (n.natAbs : Int) = n := by omega
      rw [Option.map_some', h1]

theorem length_insertByDateDesc (p : PostRow) (l : List PostRow) :
    (insertByDateDesc p l).length = l.length + 1 := by
  induction l with
  | nil => rfl
  | cons q rest ih =>
    rw [insertByDateDesc]
    split
    · simp
    · simp [ih]

theorem length_get_all_posts (db : Db) :
    (get_all_posts db).length = db.rows.length := by
  unfold get_all_posts
  induction db.rows with
  | nil => rfl
  | cons p rest ih =>
    simp only [List.foldr_cons, length_insertByDateDesc, ih, List.length_cons]

theorem mem_insertByDateDesc {x p : PostRow} {l : List PostRow} :
    x ∈ insertByDateDesc p l ↔ x = p ∨ x ∈ l := by
  induction l with
  | nil => simp [insertByDateDesc]
  | cons q rest ih =>
    rw [insertByDateDesc]
    split
    · simp [or_comm, or_assoc, or_left_comm]
    · simp [ih]
      tauto

theorem mem_get_all_posts {x : PostRow} {db : Db} :
    x ∈ get_all_posts db ↔ x ∈ db.rows := by
  unfold get_all_posts
  induction db.rows with
  | nil => simp
  | cons p rest ih =>
    simp only [List.foldr_cons, mem_insertByDateDesc, ih, List.mem_cons]

/-- Evaluation rule for `roundHalfEven` on an integer plus a fractional
part in `[0, 1)`. -/
theorem roundHalfEven_int_add (n : ℤ) (r : ℚ) (h0 : 0 ≤ r) (h1 : r < 1) :
    roundHalfEven ((n : ℚ) + r) =
      if r < 1/2 then n
      else if 1/2 < r then n + 1
      else if n % 2 = 0 then n else n + 1 := by
  have hfl : ⌊(n : ℚ) + r⌋ = n := by
    rw [Int.floor_int_add, Int.floor_eq_zero_iff.mpr ⟨h0, h1⟩, add_zero]
  have hfr : Int.fract ((n : ℚ) + r) = r := by
    rw [Int.fract_int_add, Int.fract_eq_self.mpr ⟨h0, h1⟩]
  rw [roundHalfEven, hfl, hfr]

/-- Evaluation rule for `round2` via an integer/fraction decomposition
of `q * 100`. -/
theorem round2_eval (q : ℚ) (n : ℤ) (r : ℚ) (hq : q * 100 = (n : ℚ) + r)
    (h0 : 0 ≤ r) (h1 : r < 1) :
    round2 q = ((if r < 1/2 then n
      else if 1/2 < r then n + 1
      else if n % 2 = 0 then n else n + 1 : ℤ) : ℚ) / 100 := by
  rw [round2, hq, roundHalfEven_int_add n r h0 h1]

/-! ## Claim theorems -/

/-- C10: splitting `parse_post_id(owner_id, post_id)` on `'_'` yields
exactly two parts whose integer parses recover the original ids, for
all integers (negative group owner ids included); hence the refresh
path's id decoding recovers the ingestion ids and never takes the
malformed-id branch on parser-produced ids. -/
theorem parse_post_id_roundtrip (owner_id post_id : Int) :
    splitOnChar '_' (parse_post_id owner_id post_id) =
      [intRepr owner_id, intRepr post_id] ∧
    parseInt (intRepr owner_id) = some owner_id ∧
    parseInt (intRepr post_id) = some post_id ∧
    decode_post_id (parse_post_id owner_id post_id) = some (owner_id, post_id) := by
  have hsplit : splitOnChar '_' (parse_post_id owner_id post_id) =
      [intRepr owner_id, intRepr post_id] :=
    splitOnChar_append (fun hm => mem_intRepr_ne_underscore hm rfl)
      (fun hm => mem_intRepr_ne_underscore hm rfl)
  refine ⟨hsplit, parseInt_intRepr _, parseInt_intRepr _, ?_⟩
  unfold decode_post_id
  rw [hsplit]
  simp only [parseInt_intRepr]

/-- C1: once a row is stored under a `post_id`, inserting a second row
with the same `post_id` returns the already-exists failure (`False`,
no exception) and leaves the store — hence every stored field of the
first row — unchanged. -/
theorem add_post_duplicate (db db' : Db) (p q : PostRow)
    (hpq : q.post_id = p.post_id)
    (h1 : add_post db p = (db', true)) :
    add_post db' q = (db', false) := by
  unfold add_post at h1
  split at h1
  · exact absurd (congrArg Prod.snd h1) (by simp)
  · have hdb' : db' = ⟨db.rows ++ [p]⟩ := (congrArg Prod.fst h1).symm
    have hex : post_exists db' q.post_id = true := by
      subst hdb'
      simp [post_exists, List.any_eq_true]
      exact Or.inr hpq.symm
    unfold add_post
    rw [hex]
    simp

/-- C1 witness: a concrete duplicate insert. -/
theorem add_post_duplicate_witness :
    add_post ⟨[]⟩ sampleRow = (⟨[sampleRow]⟩, true) ∧
    add_post ⟨[sampleRow]⟩ { sampleRow with likes := 99 } = (⟨[sampleRow]⟩, false) :=
  ⟨by decide, add_post_duplicate ⟨[]⟩ ⟨[sampleRow]⟩ sampleRow
    { sampleRow with likes := 99 } rfl (by decide)⟩

/-- C5 counterexample: a search call that fails with the VK rate-limit
error (`ApiError`, code 6) returns its empty result with no cooldown
pause after the call — the claim that every failed call, a failed
search included, is followed by the pause is false here. -/
theorem search_posts_failed_no_pause :
    search_posts_run (CallOutcome.apiErr 6) = ([], [ClientAction.apiCall]) ∧
    ClientAction.pause ∉ (search_posts_run (CallOutcome.apiErr 6)).2 := by
  decide

/-- C5 (amended): a successful search call pauses after the call, and
`get_post_by_id` pauses after every call (successful, `ApiError` and
`ApiHttpError` alike); but a failed search call (`ApiError`, rate limit
included, or `ApiHttpError`) returns its empty result without the
cooldown pause. -/
theorem client_pause_discipline :
    (∀ items, search_posts_run (CallOutcome.ok items) =
      (items, [ClientAction.apiCall, ClientAction.pause])) ∧
    (∀ code, search_posts_run (CallOutcome.apiErr code) =
      ([], [ClientAction.apiCall])) ∧
    (search_posts_run CallOutcome.httpErr = ([], [ClientAction.apiCall])) ∧
    (∀ o, (get_post_by_id_run o).2 = [ClientAction.apiCall, ClientAction.pause]) := by
  refine ⟨fun items => rfl, fun code => rfl, rfl, fun o => ?_⟩
  cases o <;> rfl

/-- C6: `update_post` with a partial field set returns `True` exactly
when a row with the given `post_id` is stored; on a stored row it
changes exactly the supplied fields of that row, leaving every
unsupplied field and every identity column (`post_id`, text, dates,
`first_collected`, ...) unchanged and keeping every other row; the
refresh field set built by `parse_metrics` always supplies a fresh
`last_updated`. For an absent `post_id` it reports not-found and
mutates no stored row. -/
theorem update_post_spec (db : Db) (pid : List Char) (u : FieldsUpdate) :
    (post_exists db pid = false → update_post db pid u = (db, false)) ∧
    (post_exists db pid = true → (update_post db pid u).2 = true) ∧
    (∀ r ∈ db.rows, r.post_id ≠ pid → r ∈ (update_post db pid u).1.rows) ∧
    (∀ r ∈ db.rows, r.post_id = pid →
      ∃ r' ∈ (update_post db pid u).1.rows,
        r'.post_id = r.post_id ∧
        r'.source_type = r.source_type ∧
        r'.owner_id = r.owner_id ∧
        r'.owner_name = r.owner_name ∧
        r'.post_url = r.post_url ∧
        r'.text = r.text ∧
        r'.date_published = r.date_published ∧
        r'.first_collected = r.first_collected ∧
        r'.hashtag = r.hashtag ∧
        (u.post_views = none → r'.post_views = r.post_views) ∧
        (∀ v, u.post_views = some v → r'.post_views = v) ∧
        (u.likes = none → r'.likes = r.likes) ∧
        (∀ v, u.likes = some v → r'.likes = v) ∧
        (u.comments = none → r'.comments = r.comments) ∧
        (∀ v, u.comments = some v → r'.comments = v) ∧
        (u.reposts = none → r'.reposts = r.reposts) ∧
        (∀ v, u.reposts = some v → r'.reposts = v) ∧
        (u.has_video = none → r'.has_video = r.has_video) ∧
        (∀ v, u.has_video = some v → r'.has_video = v) ∧
        (u.video_views = none → r'.video_views = r.video_views) ∧
        (∀ v, u.video_views = some v → r'.video_views = v) ∧
        (u.video_duration = none → r'.video_duration = r.video_duration) ∧
        (∀ v, u.video_duration = some v → r'.video_duration = v) ∧
        (u.video_title = none → r'.video_title = r.video_title) ∧
        (∀ v, u.video_title = some v → r'.video_title = v) ∧
        (u.last_updated = none → r'.last_updated = r.last_updated) ∧
        (∀ v, u.last_updated = some v → r'.last_updated = v)) ∧
    (∀ post now, (parse_metrics post now).last_updated = some now) := by
  refine ⟨?_, ?_, ?_, ?_, fun post now => rfl⟩
  · intro h
    have hnone : ∀ r ∈ db.rows, ¬(r.post_id = pid) := by
      simpa [post_exists, List.any_eq_false] using h
    unfold update_post
    have hmap : db.rows.map
        (fun r => if r.post_id = pid then applyFields u r else r) = db.rows := by
      conv_rhs => rw [← List.map_id db.rows]
      exact List.map_congr_left (fun r hr => if_neg (hnone r hr))
    have hcnt : db.rows.countP (fun r => decide (r.post_id = pid)) = 0 :=
      List.countP_eq_zero.mpr (fun r hr => by simpa using hnone r hr)
    simp [hmap, hcnt]
  · intro h
    have hex : ∃ r ∈ db.rows, r.post_id = pid := by
      simpa [post_exists, List.any_eq_true] using h
    have hcnt : 0 < db.rows.countP (fun r => decide (r.post_id = pid)) :=
      List.countP_pos_iff.mpr (by
        obtain ⟨r, hr, hp⟩ := hex
        exact ⟨r, hr, by simpa using hp⟩)
    simp [update_post, hcnt]
  · intro r hr hne
    have h1 := List.mem_map_of_mem
      (fun r => if r.post_id = pid then applyFields u r else r) hr
    simp only [hne, if_false, if_neg] at h1
    exact h1
  · intro r hr hp
    have hmem := List.mem_map_of_mem
      (fun r => if r.post_id = pid then applyFields u r else r) hr
    simp only [hp, if_true, if_pos] at hmem
    refine ⟨applyFields u r, hmem, rfl, rfl, rfl, rfl, rfl, rfl, rfl, rfl, rfl,
      fun h => by simp [applyFields, h], fun v h => by simp [applyFields, h],
      fun h => by simp [applyFields, h], fun v h => by simp [applyFields, h],
      fun h => by simp [applyFields, h], fun v h => by simp [applyFields, h],
      fun h => by simp [applyFields, h], fun v h => by simp [applyFields, h],
      fun h => by simp [applyFields, h], fun v h => by simp [applyFields, h],
      fun h => by simp [applyFields, h], fun v h => by simp [applyFields, h],
      fun h => by simp [applyFields, h], fun v h => by simp [applyFields, h],
      fun h => by simp [applyFields, h], fun v h => by simp [applyFields, h],
      fun h => by simp [applyFields, h], fun v h => by simp [applyFields, h]⟩

/-- C6 witness: an update of an absent id leaves a concrete store
untouched, and a partial update of a stored row succeeds. -/
theorem update_post_spec_witness :
    update_post ⟨[sampleRow]⟩ (parse_post_id 9 9) sampleUpdate =
      (⟨[sampleRow]⟩, false) ∧
    (update_post ⟨[sampleRow]⟩ sampleRow.post_id sampleUpdate).2 = true :=
  ⟨(update_post_spec ⟨[sampleRow]⟩ (parse_post_id 9 9) sampleUpdate).1 (by decide),
   (update_post_spec ⟨[sampleRow]⟩ sampleRow.post_id sampleUpdate).2.1 (by decide)⟩

/-- C7: `engagement_rate` is `0.0` whenever `post_views = 0`, whatever
the other metrics; with positive views it is
`(likes+comments+reposts)/views*100` rounded to two decimals; and the
spec's example — views 100, likes 2, comments 1, reposts 0 — evaluates
to exactly `3.0`. -/
theorem calculate_engagement_rate_spec :
    (∀ p : PostRow, p.post_views = 0 → calculate_engagement_rate p = 0) ∧
    (∀ p : PostRow, 0 < p.post_views →
      calculate_engagement_rate p =
        round2 (((p.likes : ℚ) + p.comments + p.reposts) / p.post_views * 100)) ∧
    calculate_engagement_rate sampleRow = 3 := by
  refine ⟨fun p hp => by simp [calculate_engagement_rate, hp], fun p hp => ?_, ?_⟩
  · rw [calculate_engagement_rate, if_neg (Nat.pos_iff_ne_zero.mp hp)]
  · rw [calculate_engagement_rate, if_neg (by decide : ¬sampleRow.post_views = 0)]
    have h1 : ((sampleRow.likes : ℚ) + sampleRow.comments + sampleRow.reposts) /
        sampleRow.post_views * 100 = 3 := by
      norm_num [sampleRow]
    rw [h1, round2]
    have h2 : (3 : ℚ) * 100 = ((300 : ℤ) : ℚ) + 0 := by norm_num
    rw [h2, roundHalfEven_int_add 300 0 le_rfl (by norm_num),
      if_pos (by norm_num : (0 : ℚ) < 1/2)]
    norm_num

/-- C7 witness: both hypotheses discharged on concrete posts. -/
theorem calculate_engagement_rate_spec_witness :
    calculate_engagement_rate { sampleRow with post_views := 0, likes := 5 } = 0 ∧
    calculate_engagement_rate sampleRow =
      round2 (((sampleRow.likes : ℚ) + sampleRow.comments + sampleRow.reposts) /
        sampleRow.post_views * 100) :=
  ⟨calculate_engagement_rate_spec.1 { sampleRow with post_views := 0, likes := 5 } rfl,
   calculate_engagement_rate_spec.2.1 sampleRow (by decide)⟩

/-- C8: `get_total_stats` is all-zero on an empty corpus; otherwise it
returns the corpus sums together with `avg_er` = the rounded arithmetic
mean of the per-post engagement rates. On a concrete skewed corpus that
mean is `25.5`, which differs from the aggregate
total-engagement/total-views rate (`1.49`) — the code averages rates,
it does not divide totals. -/
theorem get_total_stats_spec :
    (∀ db : Db, db.rows = [] → get_total_stats db = ⟨0, 0, 0, 0, 0, 0⟩) ∧
    (∀ db : Db, db.rows ≠ [] →
      get_total_stats db =
        { total_posts := (get_all_posts db).length
          total_views := ((get_all_posts db).map PostRow.post_views).sum
          total_likes := ((get_all_posts db).map PostRow.likes).sum
          total_comments := ((get_all_posts db).map PostRow.comments).sum
          total_reposts := ((get_all_posts db).map PostRow.reposts).sum
          avg_er := round2 (((get_all_posts db).map calculate_engagement_rate).sum /
            ((get_all_posts db).length : ℚ)) }) ∧
    (get_total_stats ⟨[hotRow, skewRow]⟩).avg_er = 51/2 ∧
    round2 ((((hotRow.likes + hotRow.comments + hotRow.reposts +
      (skewRow.likes + skewRow.comments + skewRow.reposts) : ℕ) : ℚ) /
      ((hotRow.post_views + skewRow.post_views : ℕ) : ℚ)) * 100) ≠ 51/2 := by
  have her_hot : calculate_engagement_rate hotRow = 50 := by
    rw [calculate_engagement_rate, if_neg (by decide : ¬hotRow.post_views = 0)]
    have hv : ((hotRow.likes : ℚ) + hotRow.comments + hotRow.reposts) /
        hotRow.post_views * 100 = 50 := by
      norm_num [hotRow, sampleRow]
    rw [hv, round2_eval 50 5000 0 (by norm_num) le_rfl (by norm_num),
      if_pos (by norm_num : (0 : ℚ) < 1/2)]
    norm_num
  have her_skew : calculate_engagement_rate skewRow = 1 := by
    rw [calculate_engagement_rate, if_neg (by decide : ¬skewRow.post_views = 0)]
    have hv : ((skewRow.likes : ℚ) + skewRow.comments + skewRow.reposts) /
        skewRow.post_views * 100 = 1 := by
      norm_num [skewRow, sampleRow]
    rw [hv, round2_eval 1 100 0 (by norm_num) le_rfl (by norm_num),
      if_pos (by norm_num : (0 : ℚ) < 1/2)]
    norm_num
  refine ⟨?_, ?_, ?_, ?_⟩
  · intro db h
    have h0 : get_all_posts db = [] := by
      unfold get_all_posts
      rw [h]
      rfl
    simp [get_total_stats, h0]
  · intro db h
    have h0 : get_all_posts db ≠ [] := by
      intro hc
      apply h
      have hlen := length_get_all_posts db
      rw [hc] at hlen
      exact List.length_eq_zero.mp hlen.symm
    rcases hg : get_all_posts db with _ | ⟨p, rest⟩
    · exact absurd hg h0
    · simp only [get_total_stats, hg, List.length_map]
  · have hall : get_all_posts ⟨[hotRow, skewRow]⟩ = [skewRow, hotRow] := by decide
    simp only [get_total_stats, hall, List.map_cons, List.map_nil, List.sum_cons,
      List.sum_nil, List.length_cons, List.length_nil, her_hot, her_skew]
    have hv : ((1 : ℚ) + (50 + 0)) / ((0 : ℕ) + 1 + 1 : ℕ) = 51/2 := by norm_num
    rw [hv, round2_eval (51/2) 2550 0 (by norm_num) le_rfl (by norm_num),
      if_pos (by norm_num : (0 : ℚ) < 1/2)]
    norm_num
  · have h15 : hotRow.likes + hotRow.comments + hotRow.reposts +
        (skewRow.likes + skewRow.comments + skewRow.reposts) = 15 := by decide
    have h1010 : hotRow.post_views + skewRow.post_views = 1010 := by decide
    rw [h15, h1010,
      show ((15 : ℕ) : ℚ) / ((1010 : ℕ) : ℚ) * 100 = 150/101 by push_cast; norm_num,
      round2_eval (150/101) 148 (52/101) (by norm_num) (by norm_num) (by norm_num),
      if_neg (by norm_num : ¬((52 : ℚ)/101 < 1/2)),
      if_pos (by norm_num : (1 : ℚ)/2 < 52/101)]
    norm_num

/-- C8 witness: the empty-corpus and nonempty-corpus branches applied
at concrete stores. -/
theorem get_total_stats_spec_witness :
    get_total_stats ⟨[]⟩ = ⟨0, 0, 0, 0, 0, 0⟩ ∧
    get_total_stats ⟨[sampleRow]⟩ =
      { total_posts := (get_all_posts ⟨[sampleRow]⟩).length
        total_views := ((get_all_posts ⟨[sampleRow]⟩).map PostRow.post_views).sum
        total_likes := ((get_all_posts ⟨[sampleRow]⟩).map PostRow.likes).sum
        total_comments := ((get_all_posts ⟨[sampleRow]⟩).map PostRow.comments).sum
        total_reposts := ((get_all_posts ⟨[sampleRow]⟩).map PostRow.reposts).sum
        avg_er := round2 (((get_all_posts ⟨[sampleRow]⟩).map calculate_engagement_rate).sum /
          ((get_all_posts ⟨[sampleRow]⟩).length : ℚ)) } :=
  ⟨get_total_stats_spec.1 ⟨[]⟩ rfl,
   get_total_stats_spec.2.1 ⟨[sampleRow]⟩ (by decide)⟩

theorem post_exists_add_post {db : Db} {p : PostRow} {x : List Char}
    (h : post_exists db x = true) : post_exists (add_post db p).1 x = true := by
  unfold add_post
  split
  · exact h
  · simp only [post_exists, List.any_eq_true] at h ⊢
    rcases h with ⟨r, hr, hp⟩
    exact ⟨r, List.mem_append_left _ hr, hp⟩

theorem post_exists_process {env : VKEnv} {db : Db} {post : RawPost}
    {hashtag : String} {x : List Char} (h : post_exists db x = true) :
    post_exists (process_new_post env db post hashtag).1 x = true := by
  unfold process_new_post
  split
  · exact post_exists_add_post h
  · exact h

theorem post_exists_collect_step {env : VKEnv} {hashtag : String}
    {st : Db × Nat} {post : RawPost} {x : List Char}
    (h : post_exists st.1 x = true) :
    post_exists (collect_step env hashtag st post).1 x = true := by
  simp only [collect_step]
  split_ifs
  · exact h
  · exact post_exists_process h
  · exact post_exists_process h
  · exact h

theorem post_exists_collect_fold {env : VKEnv} {hashtag : String}
    (results : List RawPost) :
    ∀ (st : Db × Nat) (x : List Char), post_exists st.1 x = true →
      post_exists ((results.foldl (collect_step env hashtag) st).1) x = true := by
  induction results with
  | nil => exact fun st x h => h
  | cons post rest ih =>
      intro st x h
      exact ih _ x (post_exists_collect_step h)

theorem post_exists_process_self {env : VKEnv} {db : Db} {post : RawPost}
    {hashtag : String} (hv : validIds post = true) :
    post_exists (process_new_post env db post hashtag).1 (raw_uid post) = true := by
  simp only [process_new_post, hv, if_true]
  unfold add_post
  split
  · rename_i hex
    exact hex
  · simp only [post_exists, List.any_eq_true]
    exact ⟨_, List.mem_append_right _ (List.mem_singleton_self _), by simp [parse_post_data, raw_uid]⟩

theorem collect_step_establishes {env : VKEnv} {hashtag : String}
    {st : Db × Nat} {post : RawPost} (hv : validIds post = true) :
    post_exists (collect_step env hashtag st post).1 (raw_uid post) = true := by
  simp only [collect_step, hv, if_true]
  split_ifs with h2 h3
  · exact h2
  · exact post_exists_process_self hv
  · exact post_exists_process_self hv

theorem collect_fold_establishes {env : VKEnv} {hashtag : String}
    (results : List RawPost) :
    ∀ st : Db × Nat, ∀ post ∈ results, validIds post = true →
      post_exists ((results.foldl (collect_step env hashtag) st).1) (raw_uid post) = true := by
  induction results with
  | nil => intro st post hmem; exact absurd hmem (List.not_mem_nil post)
  | cons q rest ih =>
      intro st post hmem hv
      rcases List.mem_cons.mp hmem with h1 | h2
      · subst h1
        exact post_exists_collect_fold rest _ _ (collect_step_establishes hv)
      · exact ih _ post h2 hv

theorem collect_fold_noop {env : VKEnv} {hashtag : String}
    (results : List RawPost) :
    ∀ st : Db × Nat,
      (∀ post ∈ results, validIds post = true →
        post_exists st.1 (raw_uid post) = true) →
      results.foldl (collect_step env hashtag) st = st := by
  induction results with
  | nil => intro st _; rfl
  | cons q rest ih =>
      intro st h
      have hq : collect_step env hashtag st q = st := by
        by_cases hv : validIds q = true
        · have hex := h q (List.mem_cons_self q rest) hv
          simp [collect_step, hv, hex]
        · simp [collect_step, hv]
      rw [List.foldl_cons, hq]
      exact ih st (fun post hm hv => h post (List.mem_cons_of_mem q hm) hv)

/-- C2: running `collect_new_posts` a second time over the unchanged
search result set inserts nothing: every result either fails the id
check both times or is found by the existence check on the second run,
so the second run returns the store unchanged and an added count of 0. -/
theorem collect_new_posts_idempotent (env : VKEnv) (db : Db) (hashtag : String)
    (results : List RawPost) :
    collect_new_posts env (collect_new_posts env db hashtag results).1 hashtag results =
      ((collect_new_posts env db hashtag results).1, 0) := by
  unfold collect_new_posts
  apply collect_fold_noop
  intro post hm hv
  exact collect_fold_establishes results (db, 0) post hm hv

theorem update_all_step_sum (env : VKEnv) (st : Db × Nat × Nat) (post : PostRow) :
    (update_all_step env st post).2.1 + (update_all_step env st post).2.2 =
      st.2.1 + st.2.2 + 1 := by
  simp only [update_all_step]
  split_ifs <;> simp <;> omega

theorem update_all_step_err_mono (env : VKEnv) (st : Db × Nat × Nat) (post : PostRow) :
    st.2.2 ≤ (update_all_step env st post).2.2 := by
  simp only [update_all_step]
  split_ifs <;> simp

theorem update_all_step_fails (env : VKEnv) (st : Db × Nat × Nat) (post : PostRow)
    (hf : row_fails env post = true) :
    (update_all_step env st post).2.2 = st.2.2 + 1 := by
  simp only [update_all_step]
  split_ifs with h1 h2
  · rfl
  · exfalso
    unfold row_fails at hf
    unfold update_post_metrics at h2
    cases hd : decode_post_id post.post_id with
    | none => rw [hd] at h2; simp at h2
    | some pr =>
        rcases pr with ⟨o, i⟩
        simp only [hd] at h2 hf
        cases hfetch : env.fetch o i with
        | none => simp only [hfetch] at h2; simp at h2
        | some p0 => simp only [hfetch] at hf; simp at hf
  · rfl

theorem update_all_fold_sum (env : VKEnv) (l : List PostRow) :
    ∀ st : Db × Nat × Nat,
      (l.foldl (update_all_step env) st).2.1 + (l.foldl (update_all_step env) st).2.2 =
        st.2.1 + st.2.2 + l.length := by
  induction l with
  | nil => intro st; rfl
  | cons q rest ih =>
      intro st
      rw [List.foldl_cons, ih, update_all_step_sum]
      simp
      omega

theorem update_all_fold_err_mono (env : VKEnv) (l : List PostRow) :
    ∀ st : Db × Nat × Nat, st.2.2 ≤ (l.foldl (update_all_step env) st).2.2 := by
  induction l with
  | nil => intro st; exact le_rfl
  | cons q rest ih =>
      intro st
      exact le_trans (update_all_step_err_mono env st q) (ih _)

theorem update_all_fold_err_hit (env : VKEnv) (l : List PostRow) :
    ∀ st : Db × Nat × Nat, (∃ r ∈ l, row_fails env r = true) →
      st.2.2 + 1 ≤ (l.foldl (update_all_step env) st).2.2 := by
  induction l with
  | nil => intro st h; exact absurd h (by simp)
  | cons q rest ih =>
      intro st h
      rcases h with ⟨r, hr, hf⟩
      rcases List.mem_cons.mp hr with h1 | h2
      · subst h1
        rw [List.foldl_cons]
        have hstep := update_all_step_fails env st r hf
        have := update_all_fold_err_mono env rest (update_all_step env st r)
        omega
      · rw [List.foldl_cons]
        have hstep := update_all_step_err_mono env st q
        have := ih (update_all_step env st q) ⟨r, h2, hf⟩
        omega

/-- C3: the refresh workflow is total (never raises in the embedding)
and counts each stored post exactly once: the returned
`(success_count, error_count)` always sums to the number of stored
posts; and any stored row whose remote post is gone (fetch yields
nothing) or whose composite id is malformed forces
`error_count ≥ 1`. -/
theorem update_all_posts_counts (env : VKEnv) (db : Db) :
    ((update_all_posts env db).2.1 + (update_all_posts env db).2.2 =
      get_post_count db) ∧
    (∀ r ∈ db.rows, row_fails env r = true →
      1 ≤ (update_all_posts env db).2.2) := by
  constructor
  · unfold update_all_posts get_post_count
    rw [update_all_fold_sum]
    simp [length_get_all_posts]
  · intro r hr hf
    unfold update_all_posts
    have h1 := update_all_fold_err_hit env (get_all_posts db) (db, 0, 0)
      ⟨r, mem_get_all_posts.mpr hr, hf⟩
    simpa using h1

/-- C3 witness: one stored post whose remote post is deleted (the fetch
returns nothing): the counts sum to the store size and the error count
is at least 1. -/
theorem update_all_posts_counts_witness :
    ((update_all_posts sampleEnv ⟨[sampleRow]⟩).2.1 +
      (update_all_posts sampleEnv ⟨[sampleRow]⟩).2.2 =
      get_post_count ⟨[sampleRow]⟩) ∧
    1 ≤ (update_all_posts sampleEnv ⟨[sampleRow]⟩).2.2 :=
  ⟨(update_all_posts_counts sampleEnv ⟨[sampleRow]⟩).1,
   (update_all_posts_counts sampleEnv ⟨[sampleRow]⟩).2 sampleRow
     (by decide) (by decide)⟩

theorem applyOp_stampBounded {db : Db} {now : Nat} (op : StoreOp)
    (h : StampBounded db now) (ht : now ≤ op.time) :
    StampBounded (applyOp db op) op.time := by
  cases op with
  | ingest post st name tag t =>
      simp only [StoreOp.time] at ht ⊢
      intro r hr
      simp only [applyOp] at hr
      unfold add_post at hr
      split at hr
      · rcases h r hr with ⟨h1, h2⟩
        exact ⟨h1, le_trans h2 ht⟩
      · rcases List.mem_append.mp hr with h1 | h1
        · rcases h r h1 with ⟨ha, hb⟩
          exact ⟨ha, le_trans hb ht⟩
        · rw [List.mem_singleton] at h1
          subst h1
          exact ⟨le_rfl, le_rfl⟩
  | refresh pid post t =>
      simp only [StoreOp.time] at ht ⊢
      intro r hr
      simp only [applyOp] at hr
      unfold update_post at hr
      simp only at hr
      rcases List.mem_map.mp hr with ⟨s, hs, hmap⟩
      rcases h s hs with ⟨h1, h2⟩
      by_cases hp : s.post_id = pid
      · rw [if_pos hp] at hmap
        subst hmap
        refine ⟨?_, le_rfl⟩
        show s.first_collected ≤ t
        exact le_trans h1 (le_trans h2 ht)
      · rw [if_neg hp] at hmap
        subst hmap
        exact ⟨h1, le_trans h2 ht⟩

theorem runOps_stampBounded (ops : List StoreOp) :
    ∀ (db : Db) (t0 : Nat), StampBounded db t0 → Chronological t0 ops →
      ∃ t1, StampBounded (runOps db ops) t1 := by
  induction ops with
  | nil => intro db t0 h _; exact ⟨t0, h⟩
  | cons op rest ih =>
      intro db t0 h hc
      rcases hc with ⟨hle, hcr⟩
      exact ih (applyOp db op) op.time (applyOp_stampBounded op h hle) hcr

/-- C9: in every store state reachable from the empty store by
ingestion inserts and metric refreshes under a non-decreasing clock,
every stored row satisfies `first_collected ≤ last_updated`: insertion
stamps both fields to the same current time, and a refresh restamps
only `last_updated` to a current (hence no earlier) time. -/
theorem first_collected_le_last_updated (ops : List StoreOp) (t0 : Nat)
    (hc : Chronological t0 ops) :
    ∀ r ∈ (runOps ⟨[]⟩ ops).rows, r.first_collected ≤ r.last_updated := by
  obtain ⟨t1, h⟩ := runOps_stampBounded ops ⟨[]⟩ t0
    (fun r hr => absurd hr (List.not_mem_nil r)) hc
  exact fun r hr => (h r hr).1

/-- C9 witness: a concrete ingest-then-refresh history; the refreshed
row keeps its insertion stamp below its update stamp. -/
theorem first_collected_le_last_updated_witness :
    (applyFields (parse_metrics sampleRaw2 200)
      (parse_post_data sampleRaw "group" "G" "#x" 100)).first_collected ≤
    (applyFields (parse_metrics sampleRaw2 200)
      (parse_post_data sampleRaw "group" "G" "#x" 100)).last_updated := by
  have hc : Chronological 0 sampleOps :=
    ⟨Nat.zero_le _, by decide, trivial⟩
  exact first_collected_le_last_updated sampleOps 0 hc _ (by decide)

theorem get_all_posts_ne_nil {db : Db} (h : db.rows ≠ []) :
    get_all_posts db ≠ [] := by
  intro hc
  apply h
  have hlen := length_get_all_posts db
  rw [hc] at hlen
  exact List.length_eq_zero.mp hlen.symm

theorem length_addCumulative (l : List DayBucket) :
    ∀ acc, (addCumulative acc l).length = l.length := by
  induction l with
  | nil => intro acc; rfl
  | cons b rest ih =>
      intro acc
      simp only [addCumulative, List.length_cons, ih]

theorem addCumulative_map_new (l : List DayBucket) :
    ∀ acc, (addCumulative acc l).map DayBucket.new_posts =
      l.map DayBucket.new_posts := by
  induction l with
  | nil => intro acc; rfl
  | cons b rest ih =>
      intro acc
      simp only [addCumulative, List.map_cons, ih]

theorem addCumulative_take (l : List DayBucket) :
    ∀ acc k, (addCumulative acc l).take k = addCumulative acc (l.take k) := by
  induction l with
  | nil => intro acc k; simp [addCumulative]
  | cons b rest ih =>
      intro acc k
      cases k with
      | zero => rfl
      | succ j => simp only [addCumulative, List.take_succ_cons, ih]

theorem addCumulative_get? (l : List DayBucket) :
    ∀ acc i b, (addCumulative acc l).get? i = some b →
      ∃ b0, l.get? i = some b0 ∧
        b = { b0 with
          total_posts := acc + ((l.take (i + 1)).map DayBucket.new_posts).sum } := by
  induction l with
  | nil => intro acc i b h; simp [addCumulative] at h
  | cons q rest ih =>
      intro acc i b h
      cases i with
      | zero =>
          simp only [addCumulative, List.get?] at h
          refine ⟨q, rfl, ?_⟩
          simp only [Option.some.injEq] at h
          subst h
          simp [List.take_succ_cons]
      | succ j =>
          simp only [addCumulative, List.get?] at h
          obtain ⟨b0, hb0, hbeq⟩ := ih (acc + q.new_posts) j b h
          refine ⟨b0, hb0, ?_⟩
          rw [hbeq]
          simp [List.take_succ_cons, Nat.add_assoc]

theorem get?_range'_one (s n : Nat) :
    ∀ i, i < n → (List.range' s n).get? i = some (s + i) := by
  induction n generalizing s with
  | zero => intro i h; omega
  | succ m ih =>
      intro i h
      cases i with
      | zero => simp [List.range']
      | succ j =>
          rw [List.range']
          simp only [List.get?]
          rw [ih (s + 1) j (by omega)]
          congr 1
          omega

/-- C4 counterexample: on an empty stored corpus the code returns no
buckets at all — even with a valid configured start day (day 1) and
today = day 5, where one bucket per day from the start date through
today would be 5 buckets — because `get_daily_dynamics` returns `[]`
for an empty store before the configured start date is consulted. -/
theorem get_daily_dynamics_empty_store :
    get_daily_dynamics ⟨[]⟩ (some 1) 5 = [] ∧
    (get_daily_dynamics ⟨[]⟩ (some 1) 5).length ≠ 5 + 1 - 1 := by
  decide

/-- C4 (amended): over a nonempty corpus, `get_daily_dynamics` returns exactly
one bucket per calendar day from the start day — the configured day
when set and parseable, else the publish day of the earliest post —
through today inclusive (so `today + 1 - start` buckets, in day order);
a day with no posts carries zero metrics; and each bucket's
`total_posts` is the cumulative sum of `new_posts` over the buckets up
to and including it. -/
theorem get_daily_dynamics_spec (db : Db) (cfgStart : Option Nat)
    (today start : Nat) (hne : db.rows ≠ [])
    (hstart : start = cfgStart.getD (dayOf (corpus_earliest (get_all_posts db)))) :
    (get_daily_dynamics db cfgStart today).length = today + 1 - start ∧
    ∀ (i : Nat) (b : DayBucket),
      (get_daily_dynamics db cfgStart today).get? i = some b →
      b.date = start + i ∧
      b.new_posts = ((get_all_posts db).filter
        (fun q => decide (dayOf q.date_published = start + i))).length ∧
      (b.new_posts = 0 → b.views = 0 ∧ b.likes = 0 ∧ b.comments = 0 ∧ b.reposts = 0) ∧
      b.total_posts = (((get_daily_dynamics db cfgStart today).take (i + 1)).map
        DayBucket.new_posts).sum := by
  rcases hg : get_all_posts db with _ | ⟨p, rest⟩
  · exact absurd hg (get_all_posts_ne_nil hne)
  · have hout : get_daily_dynamics db cfgStart today =
        addCumulative 0 ((List.range' start (today + 1 - start)).map
          (bucketFor (p :: rest))) := by
      subst hstart
      cases cfgStart with
      | none => simp [get_daily_dynamics, hg, corpus_earliest, Option.getD]
      | some d => simp [get_daily_dynamics, hg, corpus_earliest, Option.getD]
    constructor
    · rw [hout, length_addCumulative, List.length_map, List.length_range']
    · intro i b hb
      rw [hout] at hb
      obtain ⟨b0, hb0, hbeq⟩ := addCumulative_get? _ 0 i b hb
      have hb0m : ((List.range' start (today + 1 - start)).get? i).map
          (bucketFor (p :: rest)) = some b0 := by
        rw [← hb0]
        simp [List.getElem?_map]
      have hi : i < today + 1 - start := by
        rcases hd : (List.range' start (today + 1 - start)).get? i with _ | d
        · rw [hd] at hb0m; exact absurd hb0m (by simp)
        · have := (List.get?_eq_some.mp hd).1
          rwa [List.length_range'] at this
      rw [get?_range'_one start (today + 1 - start) i hi] at hb0m
      simp only [Option.map_some', Option.some.injEq] at hb0m
      subst hb0m
      subst hbeq
      refine ⟨rfl, rfl, ?_, ?_⟩
      · intro hzero
        have hfe : (p :: rest).filter
            (fun q => decide (dayOf q.date_published = start + i)) = [] := by
          have : ((p :: rest).filter
            (fun q => decide (dayOf q.date_published = start + i))).length = 0 := hzero
          exact List.length_eq_zero.mp this
        simp only [bucketFor, hfe]
        simp
      · rw [hout, addCumulative_take, addCumulative_map_new]
        simp [bucketFor]

/-- C4 witness: the spec's example — posts on day 1 and day 5 only,
configured start day 1, today day 5 — yields exactly 5 buckets; the
day-3 bucket is gap-filled with zero metrics and carries the
cumulative total 1. -/
theorem get_daily_dynamics_spec_witness :
    (get_daily_dynamics ⟨[hotRow, skewRow]⟩ (some 1) 5).length = 5 ∧
    (get_daily_dynamics ⟨[hotRow, skewRow]⟩ (some 1) 5).get? 2 =
      some ⟨3, 0, 0, 0, 0, 0, 1⟩ := by
  have h := get_daily_dynamics_spec ⟨[hotRow, skewRow]⟩ (some 1) 5 1
    (by decide) rfl
  exact ⟨by simpa using h.1, by decide⟩

end VKMonitor
